import Mathlib

/- Batteries marks the rational-number arithmetic irreducible, which blocks
   definitional evaluation of the embedding on concrete inputs; restore the
   default reducibility so that decide and rfl can compute.  This has no
   effect on soundness: the kernel ignores reducibility attributes. -/
set_option allowUnsafeReducibility true
attribute [local semireducible] Rat.add Rat.mul Rat.sub Rat.inv

/- Shallow embedding of the Leo Health ingestion and sleep-reconciliation core.

   Source files embedded here:
   leo_health/db/schema.py   (table schema, sleep dedup migration)
   leo_health/db/ingest.py   (insert helper over the SQLite store)
   leo_health/dashboard.py   (api_sleep, with its naive per-stage SUM and
                              its debug dump to /tmp/sleep_debug.txt)
   leo_pro_dashboard.py      (api_sleep with _merge_sleep_segments)
   leo_health/parsers/garmin_fit.py (RMSSD from RR intervals)

   Modelling conventions:
   SQL timestamps are fixed-width ISO-8601 strings in the source; their
   lexicographic order coincides with chronological order, so time values
   are modelled as exact rationals measured in hours, and date(recorded_at)
   becomes the floor of recorded_at / 24.  SQLite values are dynamically
   typed and nullable, modelled as Option String where only identity of the
   value matters.  Python floats are modelled as exact rationals. -/

namespace LeoHealth

/- Rounding model.  SQLite ROUND(x, n) rounds half away from zero; Python
   round(x, n) rounds half to even.  All quantities rounded in the sources
   are nonnegative durations or scores. -/

/-- SQLite ROUND(x, 2) for nonnegative x: round half away from zero to two
decimal places. -/
def sqlRound2 (x : ℚ) : ℚ :=
  if 0 ≤ x then ((⌊x * 100 + 1 / 2⌋ : ℤ) : ℚ) / 100
  else -(((⌊-x * 100 + 1 / 2⌋ : ℤ) : ℚ) / 100)

/-- SQLite ROUND(x, 0) for nonnegative x. -/
def sqlRound0 (x : ℚ) : ℚ :=
  if 0 ≤ x then ((⌊x + 1 / 2⌋ : ℤ) : ℚ)
  else -(((⌊-x + 1 / 2⌋ : ℤ) : ℚ))

/-- Python round(x, 2): banker's rounding (half to even) to two decimal
places. -/
def pyRound2 (x : ℚ) : ℚ :=
  let y := x * 100
  let f : ℤ := ⌊y⌋
  let r : ℤ :=
    if y - (f : ℚ) < 1 / 2 then f
    else if (1 : ℚ) / 2 < y - (f : ℚ) then f + 1
    else if f % 2 = 0 then f else f + 1
  (r : ℚ) / 100

/- Storage layer: leo_health/db/ingest.py and leo_health/db/schema.py.
   A stored value is a nullable SQLite value; a record is a Python dict,
   i.e. an insertion-ordered association list. -/

/-- A nullable SQLite value (none models SQL NULL / Python None). -/
abbrev SqlVal := Option String

/-- A parser record: a Python dict from field name to value. -/
abbrev DbRecord := List (String × SqlVal)

/-- Python dict row.get(k): the value at key k, or None when absent. -/
def rlookup (r : DbRecord) (k : String) : SqlVal :=
  match r.find? (fun p => p.1 == k) with
  | some p => p.2
  | none => none

/-- Columns of the heart_rate table (schema.py SCHEMA). -/
def heartRateCols : List String :=
  ["id", "source", "metric", "value", "unit", "recorded_at", "device",
   "active_calories", "avg_cadence", "avg_hr", "max_hr", "created_at"]

/-- Columns of the hrv table (schema.py SCHEMA). -/
def hrvCols : List String :=
  ["id", "source", "metric", "value", "unit", "recorded_at", "device",
   "active_calories", "avg_cadence", "avg_hr", "max_hr", "created_at"]

/-- Columns of the sleep table (schema.py SCHEMA). -/
def sleepCols : List String :=
  ["id", "source", "stage", "start", "end", "recorded_at", "device",
   "active_calories", "avg_cadence", "avg_hr", "max_hr",
   "sleep_performance_pct", "time_in_bed_hours", "light_sleep_hours",
   "rem_sleep_hours", "deep_sleep_hours", "awake_hours", "disturbances",
   "created_at"]

/-- Columns of the workouts table (schema.py SCHEMA). -/
def workoutsCols : List String :=
  ["id", "source", "activity", "duration_minutes", "distance_km", "calories",
   "recorded_at", "end", "device", "active_calories", "avg_cadence",
   "avg_hr", "max_hr", "created_at"]

/-- Columns of the whoop_recovery table (schema.py SCHEMA). -/
def whoopRecoveryCols : List String :=
  ["id", "source", "recorded_at", "recovery_score", "hrv_ms",
   "resting_heart_rate", "spo2_pct", "skin_temp_celsius", "created_at"]

/-- Columns of the whoop_strain table (schema.py SCHEMA). -/
def whoopStrainCols : List String :=
  ["id", "source", "recorded_at", "day_strain", "calories",
   "max_heart_rate", "avg_heart_rate", "created_at"]

/-- Columns of the oura_readiness table (schema.py SCHEMA). -/
def ouraReadinessCols : List String :=
  ["id", "source", "recorded_at", "readiness_score", "hrv_balance",
   "resting_heart_rate", "temperature_deviation", "recovery_index",
   "activity_balance", "sleep_balance", "created_at"]

/-- Columns of the workout_routes table (schema.py SCHEMA). -/
def workoutRoutesCols : List String :=
  ["id", "workout_start", "timestamp", "latitude", "longitude",
   "altitude_m", "created_at"]

/-- The tables that exist in the SQLite file after create_schema, with their
declared columns.  Any other table name fails at statement preparation
(sqlite3.OperationalError).  ingest.py itself performs no table-name check
of its own. -/
def tableColumns (t : String) : Option (List String) :=
  if t = "heart_rate" then some heartRateCols
  else if t = "hrv" then some hrvCols
  else if t = "sleep" then some sleepCols
  else if t = "workouts" then some workoutsCols
  else if t = "whoop_recovery" then some whoopRecoveryCols
  else if t = "whoop_strain" then some whoopStrainCols
  else if t = "oura_readiness" then some ouraReadinessCols
  else if t = "workout_routes" then some workoutRoutesCols
  else none

/-- The SQLite database contents, one row list per canonical table. -/
structure Store where
  heart_rate : List DbRecord
  hrv : List DbRecord
  sleep : List DbRecord
  workouts : List DbRecord
  whoop_recovery : List DbRecord
  whoop_strain : List DbRecord
  oura_readiness : List DbRecord
  workout_routes : List DbRecord
deriving DecidableEq, Repr

/-- A freshly created database with every table empty. -/
def emptyStore : Store := ⟨[], [], [], [], [], [], [], []⟩

/-- SQL COALESCE(v, ''): NULL normalised to the empty string, as in the
idx_sleep_unique expression index (schema.py _migrate_sleep_dedup). -/
def coalesce (v : SqlVal) : String := v.getD ""

/-- The NULL-coalesced uniqueness key of a sleep row, per the unique index
on (source, COALESCE(stage,''), COALESCE(start,''), COALESCE(end,''),
COALESCE(device,'')). -/
def sleepKey (r : DbRecord) : List String :=
  [coalesce (rlookup r "source"), coalesce (rlookup r "stage"),
   coalesce (rlookup r "start"), coalesce (rlookup r "end"),
   coalesce (rlookup r "device")]

/-- INSERT OR IGNORE of one row into the sleep table: a row violating a NOT
NULL constraint (source, recorded_at) or colliding with an existing row on
the unique NULL-coalesced key is silently skipped; otherwise it is
appended. -/
def sleepInsertOne (cur : List DbRecord) (r : DbRecord) : List DbRecord :=
  if rlookup r "source" = none ∨ rlookup r "recorded_at" = none then cur
  else if cur.any (fun x => sleepKey x == sleepKey r) then cur
  else cur ++ [r]

/-- Apply the prepared inserts to the store.  Only the sleep table has a
unique index, so only its insert has ignore-on-conflict structure; the
other tables append(the claims under verification inspect only counts and
the sleep table's contents). -/
def insertTable (st : Store) (t : String) (rows : List DbRecord) : Store :=
  if t = "sleep" then { st with sleep := rows.foldl sleepInsertOne st.sleep }
  else if t = "heart_rate" then { st with heart_rate := st.heart_rate ++ rows }
  else if t = "hrv" then { st with hrv := st.hrv ++ rows }
  else if t = "workouts" then { st with workouts := st.workouts ++ rows }
  else if t = "whoop_recovery" then
    { st with whoop_recovery := st.whoop_recovery ++ rows }
  else if t = "whoop_strain" then
    { st with whoop_strain := st.whoop_strain ++ rows }
  else if t = "oura_readiness" then
    { st with oura_readiness := st.oura_readiness ++ rows }
  else if t = "workout_routes" then
    { st with workout_routes := st.workout_routes ++ rows }
  else st

/-- The error raised by the SQLite layer at statement preparation.  These
model sqlite3.OperationalError ("no such table: ...", "table ... has no
column named ..."); ingest.py adds no typed application-level error of its
own. -/
inductive DbError where
  | noSuchTable (t : String) : DbError
  | noSuchColumn (c : String) : DbError
deriving DecidableEq, Repr

/-- The tuple built for one row: (row.get(k) for k in keys), keyed by the
first row's keys (ingest.py _insert_many). -/
def projectRow (keys : List String) (r : DbRecord) : DbRecord :=
  keys.map (fun k => (k, rlookup r k))

/-- ingest.py _insert_many(conn, table, rows): empty list returns 0 before
touching the database; otherwise the INSERT OR IGNORE statement is built
from the first row's keys and prepared (failing when the table or any
named column does not exist), every row is bound through row.get over
those keys, and len(rows) is returned regardless of how many rows the
OR IGNORE actually added. -/
def insert_many (st : Store) (table : String) (rows : List DbRecord) :
    Except DbError (Store × Nat) :=
  match rows with
  | [] => .ok (st, 0)
  | r0 :: _ =>
    match tableColumns table with
    | none => .error (.noSuchTable table)
    | some cols =>
      let keys := r0.map (fun p => p.1)
      match keys.find? (fun k => !(cols.contains k)) with
      | some k => .error (.noSuchColumn k)
      | none =>
        .ok (insertTable st table (rows.map (projectRow keys)), rows.length)

/- Generic helpers shared by the reconciliation embedding: a stable
insertion sort modelling Python sorted, and first-occurrence
deduplication modelling iteration over dict keys. -/

/-- Insert x into a sorted list, before the first element it is le-related
to (stable, as Python sorted is). -/
def insertBy {α : Type} (le : α → α → Bool) (x : α) : List α → List α
  | [] => [x]
  | y :: ys => if le x y then x :: y :: ys else y :: insertBy le x ys

/-- Stable insertion sort by a boolean order, modelling Python sorted. -/
def sortBy {α : Type} (le : α → α → Bool) : List α → List α
  | [] => []
  | x :: xs => insertBy le x (sortBy le xs)

/-- First-occurrence deduplication, carrying the set of seen elements. -/
def dedupAux {α : Type} [BEq α] (seen : List α) : List α → List α
  | [] => []
  | x :: xs =>
    if seen.contains x then dedupAux seen xs else x :: dedupAux (x :: seen) xs

/-- Distinct elements of a list in first-occurrence order (models the key
set of a Python dict built by iteration). -/
def dedupList {α : Type} [BEq α] (l : List α) : List α := dedupAux [] l

/- Sleep reconciliation.  leo_pro_dashboard.py api_sleep and
   leo_health/dashboard.py api_sleep read the sleep table and produce one
   row per calendar date.  A sleep-table row is modelled with time values
   as rational hours; date(recorded_at) becomes floor(recorded_at / 24). -/

/-- A row of the sleep table as read by api_sleep.  startT and endT model
the start and end columns (the source strips timezone suffixes with
SUBSTR(...,1,19) before parsing; here timestamps are already numeric). -/
structure SleepRow where
  source : String
  stage : Option String
  startT : Option ℚ
  endT : Option ℚ
  recorded_at : ℚ
  device : Option String
  deep_sleep_hours : Option ℚ
  rem_sleep_hours : Option ℚ
  light_sleep_hours : Option ℚ
  awake_hours : Option ℚ
  sleep_performance_pct : Option ℚ
deriving DecidableEq, Repr

/-- SQL date(recorded_at): the calendar day of a timestamp in hours. -/
def dateOf (t : ℚ) : ℤ := ⌊t / 24⌋

/-- One output row of api_sleep.  The fields core, unspec and device are
carried along by the raw-segment path (dict(r) in the source) and default
otherwise. -/
structure OutRow where
  date : ℤ
  deep : ℚ
  rem : ℚ
  light : ℚ
  awake : ℚ
  efficiency : ℚ
  device : Option String := none
  core : ℚ := 0
  unspec : ℚ := 0
deriving DecidableEq, Repr

/-- Arithmetic mean, modelling SQL AVG over a nonempty group. -/
def avgOf (l : List ℚ) : ℚ := l.sum / (l.length : ℚ)

/-- WHERE clause of api_sleep step 1: pre-aggregated whoop/oura rows with
stage 'asleep' in the date range. -/
def isPreAgg (since : ℚ) (r : SleepRow) : Bool :=
  decide (since ≤ r.recorded_at) &&
  (r.source == "whoop" || r.source == "oura") && (r.stage == some "asleep")

/-- api_sleep step 1 (both dashboards): group the pre-aggregated rows by
date(recorded_at), averaging each COALESCE(field, 0) and rounding, ordered
by date. -/
def step1Rows (since : ℚ) (db : List SleepRow) : List OutRow :=
  let g := db.filter (isPreAgg since)
  let dates :=
    sortBy (fun a b => decide (a ≤ b))
      (dedupList (g.map (fun r => dateOf r.recorded_at)))
  dates.map (fun d =>
    let grp := g.filter (fun r => dateOf r.recorded_at == d)
    { date := d
      deep := sqlRound2 (avgOf (grp.map (fun r => r.deep_sleep_hours.getD 0)))
      rem := sqlRound2 (avgOf (grp.map (fun r => r.rem_sleep_hours.getD 0)))
      light := sqlRound2 (avgOf (grp.map (fun r => r.light_sleep_hours.getD 0)))
      awake := sqlRound2 (avgOf (grp.map (fun r => r.awake_hours.getD 0)))
      efficiency :=
        sqlRound0 (avgOf (grp.map (fun r => r.sleep_performance_pct.getD 0))) })

/-- leo_pro_dashboard.py api_sleep step 1 dedup loop: a dict keyed by date,
replacing the held row when a later row has a strictly larger
deep+rem+light total, then values sorted by date. -/
def preAggDedup (rows : List OutRow) : List OutRow :=
  let m := rows.foldl (fun (acc : List (ℤ × OutRow)) r =>
    match acc.find? (fun p => p.1 == r.date) with
    | none => acc ++ [(r.date, r)]
    | some p =>
      if p.2.deep + p.2.rem + p.2.light < r.deep + r.rem + r.light then
        acc.map (fun q => if q.1 == r.date then (q.1, r) else q)
      else acc) []
  sortBy (fun a b => decide (a.date ≤ b.date)) (m.map (fun p => p.2))

/-- WHERE clause of api_sleep step 2: apple_health rows in one of the five
detailed stages with usable start and end timestamps (the source also
requires length(start) and length(end) at least 19, i.e. a parseable
timestamp, which a numeric startT/endT models). -/
def isStageSeg (since : ℚ) (r : SleepRow) : Bool :=
  decide (since ≤ r.recorded_at) && r.source == "apple_health" &&
  (r.stage == some "asleepdeep" || r.stage == some "asleeprem" ||
   r.stage == some "asleepcore" || r.stage == some "asleepunspecified" ||
   r.stage == some "awake") &&
  r.startT.isSome && r.endT.isSome

/-- The (seg_start, seg_end) intervals of the segments of one
(date, device, stage) group. -/
def segIvs (since : ℚ) (db : List SleepRow) (d : ℤ) (dev : Option String)
    (st : String) : List (ℚ × ℚ) :=
  (db.filter (fun r =>
      isStageSeg since r && dateOf r.recorded_at == d &&
      r.device == dev && r.stage == some st)).filterMap
    (fun r =>
      match r.startT, r.endT with
      | some a, some b => some (a, b)
      | _, _ => none)

/-- Python sorted on (start, end) pairs: lexicographic order. -/
def lexLe (a b : ℚ × ℚ) : Bool :=
  decide (a.1 < b.1) || (a.1 == b.1 && decide (a.2 ≤ b.2))

/-- The merge loop of _merge_sleep_segments: walk the sorted intervals,
extending the current interval while the next one overlaps or touches
(next.start less-or-equal current.end), otherwise emitting it. -/
def mergeRun (cur : ℚ × ℚ) : List (ℚ × ℚ) → List (ℚ × ℚ)
  | [] => [cur]
  | p :: rest =>
    if p.1 ≤ cur.2 then mergeRun (cur.1, max cur.2 p.2) rest
    else cur :: mergeRun p rest

/-- _merge_sleep_segments inner _merged_hours, merge phase: sort the
intervals and merge overlapping or touching ones. -/
def mergeIntervals (l : List (ℚ × ℚ)) : List (ℚ × ℚ) :=
  match sortBy lexLe l with
  | [] => []
  | p :: rest => mergeRun p rest

/-- Length of a half-open interval, in hours. -/
def ivLen (p : ℚ × ℚ) : ℚ := p.2 - p.1

/-- Total duration of the merged intervals, before the final round. -/
def mergedTotalRaw (l : List (ℚ × ℚ)) : ℚ :=
  ((mergeIntervals l).map ivLen).sum

/-- leo_pro_dashboard.py _merged_hours: merged interval duration rounded to
two decimals. -/
def merged_hours (l : List (ℚ × ℚ)) : ℚ := pyRound2 (mergedTotalRaw l)

/-- The interval union described by the spec: the set of real time points
covered by at least one of the half-open segments.  Stated over the reals
so that its duration is the Lebesgue measure. -/
def specUnionSet (l : List (ℚ × ℚ)) : Set ℝ :=
  ⋃ p ∈ l, Set.Ico ((p.1 : ℚ) : ℝ) ((p.2 : ℚ) : ℝ)

/-- One per-(date, device) aggregate of api_sleep step 2, the dict shape
both dashboards feed to the device-selection loop. -/
structure StageAgg where
  date : ℤ
  device : Option String
  deep : ℚ
  rem : ℚ
  core : ℚ
  unspec : ℚ
  awake : ℚ
  efficiency : ℚ
deriving DecidableEq, Repr

/-- Sort key for a device name (Python sorts the raw string; NULL devices
are modelled as the empty string). -/
def devKey (dev : Option String) : String := dev.getD ""

/-- The distinct (date, device) groups of the filtered segments, ordered by
date then device as the sources iterate them. -/
def segGroups (since : ℚ) (db : List SleepRow) : List (ℤ × Option String) :=
  sortBy
    (fun a b =>
      decide (a.1 < b.1) || (a.1 == b.1 && decide (devKey a.2 ≤ devKey b.2)))
    (dedupList
      ((db.filter (isStageSeg since)).map
        (fun r => (dateOf r.recorded_at, r.device))))

/-- leo_pro_dashboard.py api_sleep step 2 aggregation: per (date, device),
each stage's hours are the merged interval union of that stage's segments
(_merge_sleep_segments), rounded again when the row is built. -/
def proAgg (since : ℚ) (db : List SleepRow) : List StageAgg :=
  (segGroups since db).map (fun p =>
    { date := p.1
      device := p.2
      deep := pyRound2 (merged_hours (segIvs since db p.1 p.2 "asleepdeep"))
      rem := pyRound2 (merged_hours (segIvs since db p.1 p.2 "asleeprem"))
      core := pyRound2 (merged_hours (segIvs since db p.1 p.2 "asleepcore"))
      unspec :=
        pyRound2 (merged_hours (segIvs since db p.1 p.2 "asleepunspecified"))
      awake := pyRound2 (merged_hours (segIvs since db p.1 p.2 "awake"))
      efficiency := 0 })

/-- leo_health/dashboard.py api_sleep step 2 aggregation: per
(date, device), each stage's hours are the plain SQL SUM of segment
durations — no interval merging. -/
def naiveAgg (since : ℚ) (db : List SleepRow) : List StageAgg :=
  (segGroups since db).map (fun p =>
    { date := p.1
      device := p.2
      deep :=
        sqlRound2 (((segIvs since db p.1 p.2 "asleepdeep").map ivLen).sum)
      rem :=
        sqlRound2 (((segIvs since db p.1 p.2 "asleeprem").map ivLen).sum)
      core :=
        sqlRound2 (((segIvs since db p.1 p.2 "asleepcore").map ivLen).sum)
      unspec :=
        sqlRound2
          (((segIvs since db p.1 p.2 "asleepunspecified").map ivLen).sum)
      awake := sqlRound2 (((segIvs since db p.1 p.2 "awake").map ivLen).sum)
      efficiency := 0 })

/-- Lowercase a string, modelling Python str.lower for ASCII device names. -/
def lowerStr (s : String) : String := String.mk (s.data.map Char.toLower)

/-- Substring containment over character lists (Python "watch" in s). -/
def hasSubAux (pat : List Char) : List Char → Bool
  | [] => pat.isEmpty
  | c :: rest => pat.isPrefixOf (c :: rest) || hasSubAux pat rest

/-- Device-class test of the selection loop: the lowercased device name
contains "watch". -/
def isWatch (dev : Option String) : Bool :=
  hasSubAux "watch".data (lowerStr (devKey dev)).data

/-- The deep+rem score used to rank devices of the same class. -/
def score (r : StageAgg) : ℚ := r.deep + r.rem

/-- One step of the by_date device-selection loop: a real watch beats any
third-party app unconditionally; within the same class a strictly higher
deep+rem score wins; otherwise the held row is kept. -/
def pickStep (prev : Option StageAgg) (r : StageAgg) : Option StageAgg :=
  match prev with
  | none => some r
  | some p =>
    if isWatch r.device && !isWatch p.device then some r
    else if isWatch r.device == isWatch p.device && decide (score p < score r)
    then some r
    else some p

/-- The device selected for one date: the by_date dict entry after all of
that date's rows have passed through the selection loop in order. -/
def selectForDate (raws : List StageAgg) (d : ℤ) : Option StageAgg :=
  (raws.filter (fun r => r.date == d)).foldl pickStep none

/-- The light-sleep disambiguation and emptiness gate of api_sleep step 2:
with any deep, rem or core present, light is the core total and the
unspecified umbrella is discarded; only with zero detailed stages does the
umbrella serve as light.  The row is emitted only when deep+rem+light is
positive. -/
def finalizeRow (r : StageAgg) : Option OutRow :=
  let hasStage := decide (0 < r.deep) || decide (0 < r.rem) || decide (0 < r.core)
  let light := if hasStage then r.core else r.unspec
  if 0 < r.deep + r.rem + light then
    some { date := r.date, deep := r.deep, rem := r.rem,
           light := pyRound2 light, awake := r.awake,
           efficiency := r.efficiency, device := r.device,
           core := r.core, unspec := r.unspec }
  else none

/-- api_sleep step 2 output: per date in order, the selected device's row
after light disambiguation, dropping all-zero nights. -/
def step2Out (raws : List StageAgg) : List OutRow :=
  (sortBy (fun a b => decide (a ≤ b))
      (dedupList (raws.map (fun r => r.date)))).filterMap
    (fun d => (selectForDate raws d).bind finalizeRow)

/-- WHERE clause of api_sleep step 3: apple_health in_bed rows with start
and end present. -/
def isInBed (since : ℚ) (r : SleepRow) : Bool :=
  decide (since ≤ r.recorded_at) && r.source == "apple_health" &&
  r.stage == some "in_bed" && r.startT.isSome && r.endT.isSome

/-- api_sleep step 3 (both dashboards): total in_bed duration per date as a
plain SUM, keeping only dates with positive total. -/
def step3Rows (since : ℚ) (db : List SleepRow) : List OutRow :=
  let g := db.filter (isInBed since)
  let dates :=
    sortBy (fun a b => decide (a ≤ b))
      (dedupList (g.map (fun r => dateOf r.recorded_at)))
  (dates.map (fun d =>
    let ivs :=
      (g.filter (fun r => dateOf r.recorded_at == d)).filterMap
        (fun r =>
          match r.startT, r.endT with
          | some a, some b => some (a, b)
          | _, _ => none)
    { date := d, deep := 0, rem := 0,
      light := sqlRound2 ((ivs.map ivLen).sum), awake := 0,
      efficiency := 0 })).filter (fun r => decide (0 < r.light))

/-- leo_pro_dashboard.py api_sleep: pre-aggregated rows (deduplicated by
date) win outright; otherwise merged raw segments; otherwise in_bed
totals. -/
def apiSleepPro (since : ℚ) (db : List SleepRow) : List OutRow :=
  let s1 := step1Rows since db
  if s1.isEmpty then
    let out := step2Out (proAgg since db)
    if out.isEmpty then step3Rows since db else out
  else preAggDedup s1

/-- leo_health/dashboard.py api_sleep, with its file-system effect made
explicit: whenever step 1 yields nothing the function opens and writes
/tmp/sleep_debug.txt before continuing with the naive step 2 aggregation;
the second component lists the paths written during the call. -/
def apiSleepDash (since : ℚ) (db : List SleepRow) :
    List OutRow × List String :=
  let s1 := step1Rows since db
  if s1.isEmpty then
    let out := step2Out (naiveAgg since db)
    if out.isEmpty then (step3Rows since db, ["/tmp/sleep_debug.txt"])
    else (out, ["/tmp/sleep_debug.txt"])
  else (s1, [])

/- Garmin FIT HRV: parsers/garmin_fit.py.  _compute_rmssd_ms(rr) returns
   None for fewer than two intervals, else round(sqrt(m), 2) where m is the
   mean of the squared successive differences scaled to milliseconds.  The
   square root and the display rounding are strictly monotone, so the
   embedding tracks the radicand m exactly (over exact rationals); the
   stored value of a record is the square root of its valueSq field. -/

/-- The loop body of _compute_rmssd_ms: for each consecutive pair the
difference scaled to milliseconds, squared. -/
def succDiffsSq : List ℚ → List ℚ
  | [] => []
  | [_] => []
  | a :: b :: rest => ((b - a) * 1000) ^ 2 :: succDiffsSq (b :: rest)

/-- garmin_fit.py _compute_rmssd_ms, tracked as the squared RMSSD: None for
fewer than two RR intervals, else the mean of the squared successive
differences in milliseconds (the source returns round(sqrt(·), 2) of this
quantity). -/
def compute_rmssd_sq_ms (rr : List ℚ) : Option ℚ :=
  if rr.length < 2 then none
  else some ((succDiffsSq rr).sum / ((succDiffsSq rr).length : ℚ))

/-- The formula as the spec words it: the mean of the squared successive
differences of consecutive RR intervals expressed in milliseconds, i.e.
the square of RMSSD.  Written independently of the source loop: pairs via
zip with the tail, mean over n - 1 differences. -/
def specMeanSqDiff (rr : List ℚ) : ℚ :=
  ((rr.zip rr.tail).map (fun p => ((p.2 - p.1) * 1000) ^ 2)).sum /
    ((rr.length - 1 : ℕ) : ℚ)

/-- A normalized HRV record as emitted by _parse_hrv; valueSq carries the
squared stored value (see compute_rmssd_sq_ms). -/
structure HrvRec where
  source : String
  metric : String
  valueSq : ℚ
  unit : String
  recorded_at : String
  device : String
deriving DecidableEq, Repr

/-- garmin_fit.py _parse_hrv over the flattened RR list: no record at all
when the RMSSD is unavailable (fewer than two intervals) or the reference
timestamp is empty; otherwise exactly one hrv_rmssd record. -/
def parse_hrv (all_rr : List ℚ) (recorded_at : String) (device : String) :
    List HrvRec :=
  match compute_rmssd_sq_ms all_rr with
  | none => []
  | some m =>
    if recorded_at = "" then []
    else [{ source := "garmin", metric := "hrv_rmssd", valueSq := m,
            unit := "ms", recorded_at := recorded_at, device := device }]

/- Concrete fixtures used by the claims. -/

/-- A well-formed sleep record as a parser would emit it (its own keys are
exactly its projection keys). -/
def exSleepRec : DbRecord :=
  [("source", some "apple_health"), ("stage", some "asleepdeep"),
   ("start", some "2024-01-15T23:00:00"), ("end", some "2024-01-16T00:00:00"),
   ("recorded_at", some "2024-01-15T23:00:00"), ("device", some "Apple Watch")]

/-- The store after one successful ingest of exSleepRec into sleep. -/
def stC5 : Store := { emptyStore with sleep := [exSleepRec] }

/-- A heart-rate record carrying one field outside the declared column set
(the failing input of the unknown-column test). -/
def exExtraColRec : DbRecord :=
  [("source", some "apple_health"), ("metric", some "heart_rate"),
   ("value", some "72.0"), ("unit", some "count/min"),
   ("recorded_at", some "2024-01-01T08:00:00"),
   ("device", some "Apple Watch"),
   ("unknown_col", some "should_be_dropped")]

/-- Calendar day index of 2024-01-16 (days since 1970-01-01). -/
def d0116 : ℤ := 19738

/-- The two overlapping deep-sleep segments of the interval-union test,
in hours: the night's 00:00, 00:20, 00:30 and 00:50. -/
def exIvs : List (ℚ × ℚ) :=
  [(d0116 * 24, d0116 * 24 + 1 / 2), (d0116 * 24 + 1 / 3, d0116 * 24 + 5 / 6)]

/-- Sleep-table rows realising the two overlapping deep segments on one
device and date (recorded_at on 2024-01-16). -/
def exC1Db : List SleepRow :=
  [{ source := "apple_health", stage := some "asleepdeep",
     startT := some (d0116 * 24), endT := some (d0116 * 24 + 1 / 2),
     recorded_at := d0116 * 24, device := some "Apple Watch",
     deep_sleep_hours := none, rem_sleep_hours := none,
     light_sleep_hours := none, awake_hours := none,
     sleep_performance_pct := none },
   { source := "apple_health", stage := some "asleepdeep",
     startT := some (d0116 * 24 + 1 / 3), endT := some (d0116 * 24 + 5 / 6),
     recorded_at := d0116 * 24 + 1 / 3, device := some "Apple Watch",
     deep_sleep_hours := none, rem_sleep_hours := none,
     light_sleep_hours := none, awake_hours := none,
     sleep_performance_pct := none }]

/-- A whoop pre-aggregated night: total 8 h (deep 1, rem 1, light 6). -/
def exWhoopRow : SleepRow :=
  { source := "whoop", stage := some "asleep", startT := none, endT := none,
    recorded_at := d0116 * 24 + 8, device := none,
    deep_sleep_hours := some 1, rem_sleep_hours := some 1,
    light_sleep_hours := some 6, awake_hours := some (1 / 2),
    sleep_performance_pct := some 90 }

/-- An oura pre-aggregated row for the same date: total 6 h (deep 2, rem 2,
light 2). -/
def exOuraRow : SleepRow :=
  { source := "oura", stage := some "asleep", startT := none, endT := none,
    recorded_at := d0116 * 24 + 9, device := none,
    deep_sleep_hours := some 2, rem_sleep_hours := some 2,
    light_sleep_hours := some 2, awake_hours := some 1,
    sleep_performance_pct := some 80 }

/-- Two pre-aggregated rows for the same calendar date from two
ecosystems. -/
def exC3Db : List SleepRow := [exWhoopRow, exOuraRow]

/-- A watch-device aggregate with deep+rem score 1. -/
def exWatchAgg : StageAgg :=
  { date := d0116, device := some "Apple Watch", deep := 1 / 2, rem := 1 / 2,
    core := 2, unspec := 0, awake := 0, efficiency := 0 }

/-- A third-party-device aggregate with deep+rem score 3. -/
def exThirdAgg : StageAgg :=
  { date := d0116, device := some "iPhone AutoSleep", deep := 2, rem := 1,
    core := 4, unspec := 0, awake := 0, efficiency := 0 }

/-- The spec scenario rows: a one-hour asleepdeep segment and an
eight-hour asleepunspecified umbrella from the same device, grouped to
2024-01-16 (the rows' recorded_at, the grouping column, is not fixed by
the scenario; it is taken on 2024-01-16 as the scenario's date label
presumes). -/
def exC7Db : List SleepRow :=
  [{ source := "apple_health", stage := some "asleepdeep",
     startT := some (d0116 * 24 - 1), endT := some (d0116 * 24),
     recorded_at := d0116 * 24 + 7, device := some "Apple Watch",
     deep_sleep_hours := none, rem_sleep_hours := none,
     light_sleep_hours := none, awake_hours := none,
     sleep_performance_pct := none },
   { source := "apple_health", stage := some "asleepunspecified",
     startT := some (d0116 * 24 - 3 / 2), endT := some (d0116 * 24 + 13 / 2),
     recorded_at := d0116 * 24 + 7, device := some "Apple Watch",
     deep_sleep_hours := none, rem_sleep_hours := none,
     light_sleep_hours := none, awake_hours := none,
     sleep_performance_pct := none }]

/-- The reconciled output row for the spec scenario. -/
def exC7Out : OutRow :=
  { date := d0116, deep := 1, rem := 0, light := 0, awake := 0,
    efficiency := 0, device := some "Apple Watch", core := 0, unspec := 8 }

/-- The output row finalizeRow produces for exWatchAgg (used to witness
the light-core rule at a concrete input). -/
def exC7WOut : OutRow :=
  { date := d0116, deep := 1 / 2, rem := 1 / 2, light := 2, awake := 0,
    efficiency := 0, device := some "Apple Watch", core := 2, unspec := 0 }

/- Theorems.  First the generic facts about the insertion sort, then the
   interval-merge development, the storage lemmas, and finally one theorem
   per claim. -/

theorem insertBy_perm {α : Type} (le : α → α → Bool) (x : α) (l : List α) :
    List.Perm (insertBy le x l) (x :: l) := by
  induction l with
  | nil => simp [insertBy]
  | cons y ys ih =>
    simp only [insertBy]
    split
    · exact List.Perm.refl _
    · exact (ih.cons y).trans (List.Perm.swap x y ys)

theorem sortBy_perm {α : Type} (le : α → α → Bool) (l : List α) :
    List.Perm (sortBy le l) l := by
  induction l with
  | nil => simp [sortBy]
  | cons x xs ih => exact (insertBy_perm le x (sortBy le xs)).trans (ih.cons x)

theorem mem_insertBy {α : Type} (le : α → α → Bool) (x a : α) (l : List α) :
    a ∈ insertBy le x l ↔ a = x ∨ a ∈ l := by
  rw [(insertBy_perm le x l).mem_iff, List.mem_cons]

theorem insertBy_pairwise {α : Type} (le : α → α → Bool)
    (htot : ∀ a b, le a b = true ∨ le b a = true)
    (htrans : ∀ a b c, le a b = true → le b c = true → le a c = true)
    (x : α) (l : List α) (h : l.Pairwise (fun a b => le a b = true)) :
    (insertBy le x l).Pairwise (fun a b => le a b = true) := by
  induction l with
  | nil => simp [insertBy]
  | cons y ys ih =>
    simp only [insertBy]
    rcases List.pairwise_cons.mp h with ⟨hy, hys⟩
    split
    · rename_i hxy
      exact List.pairwise_cons.mpr
        ⟨fun z hz => by
          rcases List.mem_cons.mp hz with hz | hz
          · exact hz ▸ hxy
          · exact htrans x y z hxy (hy z hz), h⟩
    · rename_i hxy
      have hyx : le y x = true := by
        rcases htot x y with hxy2 | hyx
        · exact absurd hxy2 hxy
        · exact hyx
      exact List.pairwise_cons.mpr
        ⟨fun z hz => by
          rcases (mem_insertBy le x z ys).mp hz with hz | hz
          · exact hz ▸ hyx
          · exact hy z hz, ih hys⟩

theorem sortBy_pairwise {α : Type} (le : α → α → Bool)
    (htot : ∀ a b, le a b = true ∨ le b a = true)
    (htrans : ∀ a b c, le a b = true → le b c = true → le a c = true)
    (l : List α) : (sortBy le l).Pairwise (fun a b => le a b = true) := by
  induction l with
  | nil => simp [sortBy]
  | cons x xs ih => exact insertBy_pairwise le htot htrans x (sortBy le xs) ih

theorem lexLe_total (a b : ℚ × ℚ) : lexLe a b = true ∨ lexLe b a = true := by
  simp only [lexLe, Bool.or_eq_true, Bool.and_eq_true, decide_eq_true_eq,
    beq_iff_eq]
  rcases lt_trichotomy a.1 b.1 with h | h | h
  · exact Or.inl (Or.inl h)
  · rcases le_total a.2 b.2 with h2 | h2
    · exact Or.inl (Or.inr ⟨h, h2⟩)
    · exact Or.inr (Or.inr ⟨h.symm, h2⟩)
  · exact Or.inr (Or.inl h)

theorem lexLe_trans (a b c : ℚ × ℚ) (hab : lexLe a b = true)
    (hbc : lexLe b c = true) : lexLe a c = true := by
  simp only [lexLe, Bool.or_eq_true, Bool.and_eq_true, decide_eq_true_eq,
    beq_iff_eq] at hab hbc ⊢
  rcases hab with h1 | ⟨h1, h1b⟩ <;> rcases hbc with h2 | ⟨h2, h2b⟩
  · exact Or.inl (h1.trans h2)
  · exact Or.inl (h2 ▸ h1)
  · exact Or.inl (h1 ▸ h2)
  · exact Or.inr ⟨h1.trans h2, h1b.trans h2b⟩

theorem lexLe_fst_le (a b : ℚ × ℚ) (h : lexLe a b = true) : a.1 ≤ b.1 := by
  simp only [lexLe, Bool.or_eq_true, Bool.and_eq_true, decide_eq_true_eq,
    beq_iff_eq] at h
  rcases h with h | ⟨h, _⟩
  · exact le_of_lt h
  · exact le_of_eq h

theorem specUnionSet_nil : specUnionSet [] = ∅ := by
  simp [specUnionSet]

theorem specUnionSet_cons (p : ℚ × ℚ) (l : List (ℚ × ℚ)) :
    specUnionSet (p :: l) =
      Set.Ico ((p.1 : ℚ) : ℝ) ((p.2 : ℚ) : ℝ) ∪ specUnionSet l := by
  simp [specUnionSet, Set.iUnion_iUnion_eq_or_left]

theorem mem_specUnionSet (l : List (ℚ × ℚ)) (x : ℝ) :
    x ∈ specUnionSet l ↔
      ∃ p ∈ l, x ∈ Set.Ico ((p.1 : ℚ) : ℝ) ((p.2 : ℚ) : ℝ) := by
  simp only [specUnionSet, Set.mem_iUnion₂, exists_prop]

theorem specUnionSet_congr (l₁ l₂ : List (ℚ × ℚ))
    (h : ∀ p, p ∈ l₁ ↔ p ∈ l₂) : specUnionSet l₁ = specUnionSet l₂ := by
  ext x
  simp only [mem_specUnionSet]
  constructor
  · rintro ⟨p, hp, hx⟩
    exact ⟨p, (h p).mp hp, hx⟩
  · rintro ⟨p, hp, hx⟩
    exact ⟨p, (h p).mpr hp, hx⟩

theorem measurable_specUnionSet (l : List (ℚ × ℚ)) :
    MeasurableSet (specUnionSet l) := by
  induction l with
  | nil => rw [specUnionSet_nil]; exact MeasurableSet.empty
  | cons p rest ih =>
    rw [specUnionSet_cons]
    exact measurableSet_Ico.union ih

theorem ico_absorb (a b s e : ℚ) (ha : a ≤ s) (hs : s ≤ b) (_hse : s ≤ e) :
    Set.Ico ((a : ℚ) : ℝ) ((max b e : ℚ) : ℝ) =
      Set.Ico ((a : ℚ) : ℝ) ((b : ℚ) : ℝ) ∪
        Set.Ico ((s : ℚ) : ℝ) ((e : ℚ) : ℝ) := by
  rcases le_total e b with heb | hbe
  · rw [max_eq_left heb]
    rw [Set.union_eq_self_of_subset_right]
    exact Set.Ico_subset_Ico (by exact_mod_cast ha) (by exact_mod_cast heb)
  · rw [max_eq_right hbe]
    have ha' : ((a : ℚ) : ℝ) ≤ ((s : ℚ) : ℝ) := by exact_mod_cast ha
    have hs' : ((s : ℚ) : ℝ) ≤ ((b : ℚ) : ℝ) := by exact_mod_cast hs
    have hbe' : ((b : ℚ) : ℝ) ≤ ((e : ℚ) : ℝ) := by exact_mod_cast hbe
    ext x
    simp only [Set.mem_Ico, Set.mem_union]
    constructor
    · rintro ⟨h1, h2⟩
      by_cases hxb : x < ((b : ℚ) : ℝ)
      · exact Or.inl ⟨h1, hxb⟩
      · exact Or.inr ⟨le_trans hs' (le_of_not_lt hxb), h2⟩
    · rintro (⟨h1, h2⟩ | ⟨h1, h2⟩)
      · exact ⟨h1, lt_of_lt_of_le h2 hbe'⟩
      · exact ⟨le_trans ha' h1, h2⟩

theorem mergeRun_union (l : List (ℚ × ℚ)) : ∀ cur : ℚ × ℚ, cur.1 ≤ cur.2 →
    (∀ p ∈ l, p.1 ≤ p.2) → (∀ p ∈ l, cur.1 ≤ p.1) →
    l.Pairwise (fun a b => a.1 ≤ b.1) →
    specUnionSet (mergeRun cur l) =
      Set.Ico ((cur.1 : ℚ) : ℝ) ((cur.2 : ℚ) : ℝ) ∪ specUnionSet l := by
  induction l with
  | nil =>
    intro cur _ _ _ _
    simp only [mergeRun]
    rw [specUnionSet_cons]
  | cons p rest ih =>
    intro cur hcur hwf hge hs
    rcases List.pairwise_cons.mp hs with ⟨hp, hrest⟩
    simp only [mergeRun]
    split
    · rename_i hple
      rw [ih (cur.1, max cur.2 p.2)
        (le_trans hcur (le_max_left _ _))
        (fun q hq => hwf q (List.mem_cons_of_mem p hq))
        (fun q hq =>
          le_trans (hge p (List.mem_cons_self p rest)) (hp q hq))
        hrest]
      rw [specUnionSet_cons, ← Set.union_assoc]
      congr 1
      exact ico_absorb cur.1 cur.2 p.1 p.2
        (hge p (List.mem_cons_self p rest)) hple
        (hwf p (List.mem_cons_self p rest))
    · rename_i hple
      rw [specUnionSet_cons, specUnionSet_cons]
      rw [ih p (hwf p (List.mem_cons_self p rest))
        (fun q hq => hwf q (List.mem_cons_of_mem p hq)) hp hrest]

theorem mergeRun_wf (l : List (ℚ × ℚ)) : ∀ cur : ℚ × ℚ, cur.1 ≤ cur.2 →
    (∀ p ∈ l, p.1 ≤ p.2) → ∀ q ∈ mergeRun cur l, q.1 ≤ q.2 := by
  induction l with
  | nil =>
    intro cur hcur _ q hq
    simp only [mergeRun, List.mem_singleton] at hq
    exact hq ▸ hcur
  | cons p rest ih =>
    intro cur hcur hwf q hq
    simp only [mergeRun] at hq
    split at hq
    · exact ih (cur.1, max cur.2 p.2) (le_trans hcur (le_max_left _ _))
        (fun r hr => hwf r (List.mem_cons_of_mem p hr)) q hq
    · rcases List.mem_cons.mp hq with hq | hq
      · exact hq ▸ hcur
      · exact ih p (hwf p (List.mem_cons_self p rest))
          (fun r hr => hwf r (List.mem_cons_of_mem p hr)) q hq

theorem mergeRun_fst_ge (l : List (ℚ × ℚ)) : ∀ cur : ℚ × ℚ,
    (∀ p ∈ l, cur.1 ≤ p.1) → l.Pairwise (fun a b => a.1 ≤ b.1) →
    ∀ q ∈ mergeRun cur l, cur.1 ≤ q.1 := by
  induction l with
  | nil =>
    intro cur _ _ q hq
    simp only [mergeRun, List.mem_singleton] at hq
    exact hq ▸ le_refl _
  | cons p rest ih =>
    intro cur hge hs q hq
    rcases List.pairwise_cons.mp hs with ⟨hp, hrest⟩
    simp only [mergeRun] at hq
    split at hq
    · exact ih (cur.1, max cur.2 p.2)
        (fun r hr =>
          le_trans (hge p (List.mem_cons_self p rest)) (hp r hr)) hrest q hq
    · rcases List.mem_cons.mp hq with hq | hq
      · exact hq ▸ le_refl _
      · exact le_trans (hge p (List.mem_cons_self p rest))
          (ih p hp hrest q hq)

theorem mergeRun_separated (l : List (ℚ × ℚ)) : ∀ cur : ℚ × ℚ,
    (∀ p ∈ l, cur.1 ≤ p.1) → l.Pairwise (fun a b => a.1 ≤ b.1) →
    (mergeRun cur l).Pairwise (fun a b => a.2 < b.1) := by
  induction l with
  | nil =>
    intro cur _ _
    simp [mergeRun]
  | cons p rest ih =>
    intro cur hge hs
    rcases List.pairwise_cons.mp hs with ⟨hp, hrest⟩
    simp only [mergeRun]
    split
    · exact ih (cur.1, max cur.2 p.2)
        (fun r hr =>
          le_trans (hge p (List.mem_cons_self p rest)) (hp r hr)) hrest
    · rename_i hple
      have hlt : cur.2 < p.1 := lt_of_not_le hple
      exact List.pairwise_cons.mpr
        ⟨fun q hq => lt_of_lt_of_le hlt (mergeRun_fst_ge rest p hp hrest q hq),
         ih p hp hrest⟩

theorem ivLen_sum_nonneg (l : List (ℚ × ℚ)) (hwf : ∀ p ∈ l, p.1 ≤ p.2) :
    0 ≤ (l.map ivLen).sum := by
  induction l with
  | nil => simp
  | cons p rest ih =>
    simp only [List.map_cons, List.sum_cons]
    have h1 : 0 ≤ ivLen p := by
      have := hwf p (List.mem_cons_self p rest)
      simp only [ivLen]
      linarith
    have h2 : 0 ≤ (rest.map ivLen).sum :=
      ih (fun q hq => hwf q (List.mem_cons_of_mem p hq))
    linarith

theorem volume_specUnionSet_separated (l : List (ℚ × ℚ))
    (hwf : ∀ p ∈ l, p.1 ≤ p.2) (hsep : l.Pairwise (fun a b => a.2 < b.1)) :
    MeasureTheory.volume (specUnionSet l) =
      ENNReal.ofReal (((l.map ivLen).sum : ℚ) : ℝ) := by
  induction l with
  | nil =>
    rw [specUnionSet_nil]
    simp
  | cons p rest ih =>
    rcases List.pairwise_cons.mp hsep with ⟨hp, hrest⟩
    have hwfr : ∀ q ∈ rest, q.1 ≤ q.2 :=
      fun q hq => hwf q (List.mem_cons_of_mem p hq)
    have hdisj :
        Disjoint (Set.Ico ((p.1 : ℚ) : ℝ) ((p.2 : ℚ) : ℝ))
          (specUnionSet rest) := by
      rw [Set.disjoint_left]
      intro x hx hx2
      rcases (mem_specUnionSet rest x).mp hx2 with ⟨q, hq, hxq⟩
      have h1 : x < ((p.2 : ℚ) : ℝ) := hx.2
      have h2 : ((q.1 : ℚ) : ℝ) ≤ x := hxq.1
      have h3 : ((p.2 : ℚ) : ℝ) < ((q.1 : ℚ) : ℝ) := by
        exact_mod_cast hp q hq
      linarith
    rw [specUnionSet_cons,
      MeasureTheory.measure_union hdisj (measurable_specUnionSet rest),
      Real.volume_Ico, ih hwfr hrest]
    have h1 : (0 : ℝ) ≤ ((p.2 : ℚ) : ℝ) - ((p.1 : ℚ) : ℝ) := by
      have := hwf p (List.mem_cons_self p rest)
      have h' : ((p.1 : ℚ) : ℝ) ≤ ((p.2 : ℚ) : ℝ) := by exact_mod_cast this
      linarith
    have h2 : (0 : ℝ) ≤ (((rest.map ivLen).sum : ℚ) : ℝ) := by
      exact_mod_cast ivLen_sum_nonneg rest hwfr
    rw [← ENNReal.ofReal_add h1 h2]
    congr 1
    simp only [List.map_cons, List.sum_cons, ivLen]
    push_cast
    ring

theorem mergedTotalRaw_eq_volume (l : List (ℚ × ℚ))
    (hwf : ∀ p ∈ l, p.1 ≤ p.2) :
    ((mergedTotalRaw l : ℚ) : ℝ) =
      (MeasureTheory.volume (specUnionSet l)).toReal := by
  have hmem : ∀ p, p ∈ sortBy lexLe l ↔ p ∈ l :=
    fun p => (sortBy_perm lexLe l).mem_iff
  have huni : specUnionSet (sortBy lexLe l) = specUnionSet l :=
    specUnionSet_congr _ _ hmem
  have hpw := sortBy_pairwise lexLe lexLe_total lexLe_trans l
  cases hsort : sortBy lexLe l with
  | nil =>
    have hempty : specUnionSet l = ∅ := by
      rw [← huni, hsort, specUnionSet_nil]
    rw [hempty]
    simp only [mergedTotalRaw, mergeIntervals, hsort]
    simp
  | cons q rest =>
    have hwfs : ∀ p ∈ q :: rest, p.1 ≤ p.2 := by
      intro p hp
      exact hwf p ((hmem p).mp (hsort ▸ hp))
    have hpw2 : (q :: rest).Pairwise (fun a b => a.1 ≤ b.1) := by
      have := hsort ▸ hpw
      exact this.imp (fun h => lexLe_fst_le _ _ h)
    rcases List.pairwise_cons.mp hpw2 with ⟨hq, hrest⟩
    have hwfq : q.1 ≤ q.2 := hwfs q (List.mem_cons_self q rest)
    have hwfr : ∀ p ∈ rest, p.1 ≤ p.2 :=
      fun p hp => hwfs p (List.mem_cons_of_mem q hp)
    have hmerge : mergeIntervals l = mergeRun q rest := by
      simp only [mergeIntervals, hsort]
    have hvol :
        MeasureTheory.volume (specUnionSet l) =
          ENNReal.ofReal ((((mergeRun q rest).map ivLen).sum : ℚ) : ℝ) := by
      rw [← huni, hsort, specUnionSet_cons,
        ← mergeRun_union rest q hwfq hwfr hq hrest]
      exact volume_specUnionSet_separated _
        (mergeRun_wf rest q hwfq hwfr)
        (mergeRun_separated rest q hq hrest)
    rw [hvol, ENNReal.toReal_ofReal]
    · simp only [mergedTotalRaw, hmerge]
    · exact_mod_cast ivLen_sum_nonneg _ (mergeRun_wf rest q hwfq hwfr)

/- Storage-layer lemmas: the INSERT OR IGNORE fold over the sleep table is
   idempotent once every incoming key is present. -/

theorem mem_sleepInsertOne (cur : List DbRecord) (r x : DbRecord)
    (hx : x ∈ cur) : x ∈ sleepInsertOne cur r := by
  unfold sleepInsertOne
  split
  · exact hx
  · split
    · exact hx
    · exact List.mem_append_left _ hx

theorem subset_foldl_sleepInsert (l : List DbRecord) :
    ∀ cur : List DbRecord, ∀ x ∈ cur, x ∈ l.foldl sleepInsertOne cur := by
  induction l with
  | nil => intro cur x hx; exact hx
  | cons r rest ih =>
    intro cur x hx
    exact ih (sleepInsertOne cur r) x (mem_sleepInsertOne cur r x hx)

theorem sleepInsertOne_key_present (cur : List DbRecord) (r : DbRecord)
    (hv : ¬(rlookup r "source" = none ∨ rlookup r "recorded_at" = none)) :
    ∃ x ∈ sleepInsertOne cur r, sleepKey x = sleepKey r := by
  unfold sleepInsertOne
  rw [if_neg hv]
  split
  · rename_i hany
    rcases List.any_eq_true.mp hany with ⟨x, hx, hbeq⟩
    exact ⟨x, hx, beq_iff_eq.mp hbeq⟩
  · exact ⟨r, List.mem_append_right _ (List.mem_singleton.mpr rfl), rfl⟩

theorem key_present_after_fold (l : List DbRecord) :
    ∀ cur : List DbRecord, ∀ r ∈ l,
    ¬(rlookup r "source" = none ∨ rlookup r "recorded_at" = none) →
    ∃ x ∈ l.foldl sleepInsertOne cur, sleepKey x = sleepKey r := by
  induction l with
  | nil => intro cur r hr; exact absurd hr (List.not_mem_nil r)
  | cons r0 rest ih =>
    intro cur r hr hv
    rcases List.mem_cons.mp hr with hr | hr
    · subst hr
      rcases sleepInsertOne_key_present cur r hv with ⟨x, hx, hk⟩
      exact ⟨x, subset_foldl_sleepInsert rest _ x hx, hk⟩
    · exact ih (sleepInsertOne cur r0) r hr hv

theorem fold_sleepInsert_noop (l : List DbRecord) :
    ∀ cur : List DbRecord,
    (∀ r ∈ l, (rlookup r "source" = none ∨ rlookup r "recorded_at" = none) ∨
      ∃ x ∈ cur, sleepKey x = sleepKey r) →
    l.foldl sleepInsertOne cur = cur := by
  induction l with
  | nil => intro cur _; rfl
  | cons r0 rest ih =>
    intro cur h
    have hstep : sleepInsertOne cur r0 = cur := by
      unfold sleepInsertOne
      split
      · rfl
      · rename_i hv
        rcases h r0 (List.mem_cons_self r0 rest) with hinv | ⟨x, hx, hk⟩
        · exact absurd hinv hv
        · rw [if_pos]
          exact List.any_eq_true.mpr ⟨x, hx, beq_iff_eq.mpr hk⟩
    rw [List.foldl_cons, hstep]
    exact ih cur (fun r hr => h r (List.mem_cons_of_mem r0 hr))

theorem fold_sleepInsert_idem (l : List DbRecord) (cur : List DbRecord) :
    l.foldl sleepInsertOne (l.foldl sleepInsertOne cur) =
      l.foldl sleepInsertOne cur := by
  apply fold_sleepInsert_noop
  intro r hr
  by_cases hv : rlookup r "source" = none ∨ rlookup r "recorded_at" = none
  · exact Or.inl hv
  · exact Or.inr (key_present_after_fold l cur r hr hv)

theorem insertTable_sleep_idem (st : Store) (rows : List DbRecord) :
    insertTable (insertTable st "sleep" rows) "sleep" rows =
      insertTable st "sleep" rows := by
  show ({ { st with sleep := rows.foldl sleepInsertOne st.sleep } with
      sleep :=
        rows.foldl sleepInsertOne (rows.foldl sleepInsertOne st.sleep) } :
        Store) =
    { st with sleep := rows.foldl sleepInsertOne st.sleep }
  rw [fold_sleepInsert_idem]

/-- C5: re-ingesting the exact same sleep batch is idempotent — whatever
store and count one successful insert_many into the sleep table produces,
running the same insert_many again over that store returns the very same
store (hence identical rows in every NULL-coalesced
(source, stage, start, end, device) key group, and identical reconciled
nightly totals) and the same count. -/
theorem claim_C5 (st st1 : Store) (rows : List DbRecord) (n : ℕ)
    (h : insert_many st "sleep" rows = Except.ok (st1, n)) :
    insert_many st1 "sleep" rows = Except.ok (st1, n) := by
  cases rows with
  | nil =>
    simp only [insert_many, Except.ok.injEq, Prod.mk.injEq] at h
    obtain ⟨h1, h2⟩ := h
    rw [← h1, ← h2]
    rfl
  | cons r0 rest =>
    have h' : (match (r0.map (fun p => p.1)).find?
          (fun k => !(sleepCols.contains k)) with
        | some k => (Except.error (DbError.noSuchColumn k) :
            Except DbError (Store × Nat))
        | none => Except.ok (insertTable st "sleep"
            ((r0 :: rest).map (projectRow (r0.map (fun p => p.1)))),
            (r0 :: rest).length)) = Except.ok (st1, n) := h
    cases hf : (r0.map (fun p => p.1)).find?
        (fun k => !(sleepCols.contains k)) with
    | some k =>
      rw [hf] at h'
      exact absurd h' (by simp)
    | none =>
      rw [hf] at h'
      simp only [Except.ok.injEq, Prod.mk.injEq] at h'
      obtain ⟨hst, hn⟩ := h'
      show (match (r0.map (fun p => p.1)).find?
          (fun k => !(sleepCols.contains k)) with
        | some k => (Except.error (DbError.noSuchColumn k) :
            Except DbError (Store × Nat))
        | none => Except.ok (insertTable st1 "sleep"
            ((r0 :: rest).map (projectRow (r0.map (fun p => p.1)))),
            (r0 :: rest).length)) = Except.ok (st1, n)
      rw [hf, ← hst, insertTable_sleep_idem, ← hn]

/-- Witness for C5 at a concrete input: with one sleep record already
ingested, re-running the same single-record ingest leaves the store
untouched. -/
theorem claim_C5_witness :
    insert_many stC5 "sleep" [exSleepRec] = Except.ok (stC5, 1) :=
  claim_C5 emptyStore stC5 [exSleepRec] 1 rfl

/-- C10: whenever insert_many succeeds on a non-empty record list, the
returned count is the length of the input list — independent of how many
rows the insert-or-ignore write actually added. -/
theorem claim_C10 (st : Store) (t : String) (rows : List DbRecord)
    (st1 : Store) (n : ℕ) (hne : rows ≠ [])
    (h : insert_many st t rows = Except.ok (st1, n)) : n = rows.length := by
  cases rows with
  | nil => exact absurd rfl hne
  | cons r0 rest =>
    simp only [insert_many] at h
    split at h
    · exact absurd h (by simp)
    · split at h
      · exact absurd h (by simp)
      · simp only [Except.ok.injEq, Prod.mk.injEq] at h
        exact h.2.symm

/-- Witness for C10 at a concrete input: re-importing a batch whose only
row is already stored still reports the full count 1, although the
insert-or-ignore added nothing. -/
theorem claim_C10_witness : (1 : ℕ) = [exSleepRec].length :=
  claim_C10 stC5 "sleep" [exSleepRec] stC5 1 (by simp) rfl

/-- C2: what _insert_many actually does at the unknown-table failing
input — the failure is the storage layer's no-such-table preparation
error (sqlite3.OperationalError), produced only because the table is
absent from the SQLite file; ingest.py has no allow-list of its own and no
typed application-level unknown-table error, contradicting its test
test_ingest_rejects_unknown_table which requires a ValueError.  The
empty-list half of the claim does hold: an empty list returns 0 without
touching the store. -/
theorem claim_C2 :
    insert_many emptyStore "malicious_table" [[("col", some "val")]] =
      Except.error (DbError.noSuchTable "malicious_table") ∧
    insert_many emptyStore "heart_rate" ([] : List DbRecord) =
      Except.ok (emptyStore, 0) :=
  ⟨rfl, rfl⟩

/-- C8: what _insert_many actually does at the unknown-column failing
input — a record carrying a field outside the declared column set makes
the whole insert fail with the storage layer's no-such-column preparation
error instead of silently dropping the field, contradicting its test
test_ingest_ignores_unknown_columns. -/
theorem claim_C8 :
    insert_many emptyStore "heart_rate" [exExtraColRec] =
      Except.error (DbError.noSuchColumn "unknown_col") :=
  rfl

/- Device-selection lemmas for the by_date loop. -/

theorem pickStep_watch_stays (p r : StageAgg) (hp : isWatch p.device = true) :
    ∃ q, pickStep (some p) r = some q ∧ isWatch q.device = true := by
  by_cases hr : isWatch r.device = true
  · by_cases hs : score p < score r
    · exact ⟨r, by simp [pickStep, hp, hr, hs], hr⟩
    · exact ⟨p, by simp [pickStep, hp, hr, hs], hp⟩
  · exact ⟨p, by simp [pickStep, hp, hr], hp⟩

theorem pickStep_watch_wins (acc : Option StageAgg) (r : StageAgg)
    (hr : isWatch r.device = true) :
    ∃ q, pickStep acc r = some q ∧ isWatch q.device = true := by
  cases acc with
  | none => exact ⟨r, rfl, hr⟩
  | some p =>
    by_cases hp : isWatch p.device = true
    · exact pickStep_watch_stays p r hp
    · exact ⟨r, by simp [pickStep, hr, hp], hr⟩

theorem foldl_pickStep_watch (l : List StageAgg) :
    ∀ acc : Option StageAgg,
    ((∃ p, acc = some p ∧ isWatch p.device = true) ∨
      ∃ r ∈ l, isWatch r.device = true) →
    ∃ w, l.foldl pickStep acc = some w ∧ isWatch w.device = true := by
  induction l with
  | nil =>
    intro acc h
    rcases h with ⟨p, hacc, hw⟩ | ⟨r, hr, _⟩
    · exact ⟨p, hacc, hw⟩
    · exact absurd hr (List.not_mem_nil r)
  | cons r0 rest ih =>
    intro acc h
    rw [List.foldl_cons]
    rcases h with ⟨p, hacc, hw⟩ | ⟨r, hr, hw⟩
    · subst hacc
      rcases pickStep_watch_stays p r0 hw with ⟨q, hq, hqw⟩
      rw [hq]
      exact ih (some q) (Or.inl ⟨q, rfl, hqw⟩)
    · rcases List.mem_cons.mp hr with hh | hh
      · subst hh
        rcases pickStep_watch_wins acc r hw with ⟨q, hq, hqw⟩
        rw [hq]
        exact ih (some q) (Or.inl ⟨q, rfl, hqw⟩)
      · exact ih (pickStep acc r0) (Or.inr ⟨r, hh, hw⟩)

/-- C1: the naive per-stage SUM of leo_health/dashboard.py api_sleep step 2
reports 1.0 h of deep sleep for the two overlapping segments 00:00-00:30
and 00:20-00:50 on one device and date, while leo_pro_dashboard.py's
_merge_sleep_segments reports the merged 50 minutes (5/6 h, displayed
0.83), which equals the Lebesgue measure of the interval union of the two
segments. -/
theorem claim_C1 :
    (naiveAgg 0 exC1Db).map (fun r => r.deep) = [1] ∧
    (proAgg 0 exC1Db).map (fun r => r.deep) = [83 / 100] ∧
    mergedTotalRaw exIvs = 5 / 6 ∧
    ((mergedTotalRaw exIvs : ℚ) : ℝ) =
      (MeasureTheory.volume (specUnionSet exIvs)).toReal :=
  ⟨by decide, by decide, by decide,
    mergedTotalRaw_eq_volume exIvs (by decide)⟩

/-- C3: with two pre-aggregated rows (whoop total 8 h, oura total 6 h) on
the same calendar date, api_sleep uses the pre-aggregated branch
exclusively, but its SQL GROUP BY averages the two rows column-wise
(deep 1.5, rem 1.5, light 4); the output equals neither the larger-total
whoop row (1, 1, 6) nor the oura row (2, 2, 2), so the documented
keep-the-larger-total rule never takes effect. -/
theorem claim_C3 :
    step1Rows 0 exC3Db ≠ [] ∧
    apiSleepPro 0 exC3Db = preAggDedup (step1Rows 0 exC3Db) ∧
    (apiSleepPro 0 exC3Db).map (fun r => (r.deep, r.rem, r.light)) =
      [(3 / 2, 3 / 2, 4)] ∧
    (apiSleepPro 0 exC3Db).map (fun r => (r.deep, r.rem, r.light)) ≠
      [(1, 1, 6)] ∧
    (apiSleepPro 0 exC3Db).map (fun r => (r.deep, r.rem, r.light)) ≠
      [(2, 2, 2)] :=
  ⟨by decide, by decide, by decide, by decide, by decide⟩

/-- C4: leo_health/dashboard.py api_sleep writes /tmp/sleep_debug.txt on
every query whose pre-aggregated step yields nothing — even over an empty
database, and also when the raw-segment step returns data; only a query
answered by the pre-aggregated branch avoids the write. -/
theorem claim_C4 :
    apiSleepDash 0 ([] : List SleepRow) = ([], ["/tmp/sleep_debug.txt"]) ∧
    (apiSleepDash 0 exC1Db).2 = ["/tmp/sleep_debug.txt"] ∧
    (apiSleepDash 0 exC3Db).2 = [] :=
  ⟨by decide, by decide, by decide⟩

/-- C6: in the device-selection loop, any date reported by some device
whose lowercased name contains "watch" resolves to a watch-class device;
between two same-class devices the strictly larger deep+rem score wins in
either processing order; and concretely a watch with score 1 beats a
third-party device with score 3. -/
theorem claim_C6 :
    (∀ (raws : List StageAgg) (d : ℤ) (r : StageAgg), r ∈ raws →
      r.date = d → isWatch r.device = true →
      ∃ w, selectForDate raws d = some w ∧ isWatch w.device = true) ∧
    (∀ (d : ℤ) (r1 r2 : StageAgg), r1.date = d → r2.date = d →
      isWatch r1.device = isWatch r2.device → score r1 < score r2 →
      selectForDate [r1, r2] d = some r2 ∧
        selectForDate [r2, r1] d = some r2) ∧
    (selectForDate [exThirdAgg, exWatchAgg] d0116 = some exWatchAgg ∧
      selectForDate [exWatchAgg, exThirdAgg] d0116 = some exWatchAgg ∧
      isWatch exWatchAgg.device = true ∧ isWatch exThirdAgg.device = false ∧
      score exWatchAgg = 1 ∧ score exThirdAgg = 3) := by
  refine ⟨?_, ?_, ?_⟩
  · intro raws d r hr hd hw
    apply foldl_pickStep_watch
    exact Or.inr ⟨r, List.mem_filter.mpr ⟨hr, by simp [hd]⟩, hw⟩
  · intro d r1 r2 h1 h2 hcls hsc
    have hfilt12 : ([r1, r2].filter (fun r => r.date == d)) = [r1, r2] := by
      simp [List.filter, h1, h2]
    have hfilt21 : ([r2, r1].filter (fun r => r.date == d)) = [r2, r1] := by
      simp [List.filter, h1, h2]
    constructor
    · unfold selectForDate
      rw [hfilt12]
      show pickStep (some r1) r2 = some r2
      simp [pickStep, ← hcls, hsc]
    · unfold selectForDate
      rw [hfilt21]
      show pickStep (some r2) r1 = some r2
      simp [pickStep, hcls, lt_asymm hsc]
  · exact ⟨by decide, by decide, by decide, by decide, by decide, by decide⟩

/-- Witness for C6 at a concrete input: the third-party row is processed
first, yet the selected device is watch-class. -/
theorem claim_C6_witness :
    ∃ w, selectForDate [exThirdAgg, exWatchAgg] d0116 = some w ∧
      isWatch w.device = true :=
  claim_C6.1 [exThirdAgg, exWatchAgg] d0116 exWatchAgg (by simp) rfl
    (by decide)

/-- C7: when the selected device has any deep, rem or core time, the
emitted light value is the core total and the unspecified umbrella is
excluded; the umbrella serves as light only with zero detailed stages;
and on the spec scenario (a 1 h asleepdeep segment plus an 8 h
asleepunspecified umbrella from the same device, grouped to 2024-01-16)
the full pipeline reports deep 1.0 and light 0. -/
theorem claim_C7 :
    (∀ (r : StageAgg) (out : OutRow),
      (0 < r.deep ∨ 0 < r.rem ∨ 0 < r.core) → finalizeRow r = some out →
      out.light = pyRound2 r.core ∧ out.deep = r.deep ∧ out.rem = r.rem) ∧
    (∀ (r : StageAgg) (out : OutRow), r.deep = 0 → r.rem = 0 → r.core = 0 →
      finalizeRow r = some out → out.light = pyRound2 r.unspec) ∧
    (apiSleepPro 0 exC7Db = [exC7Out] ∧ exC7Out.deep = 1 ∧
      exC7Out.light = 0) := by
  refine ⟨?_, ?_, by decide, rfl, rfl⟩
  · intro r out h hf
    have hb : (decide (0 < r.deep) || decide (0 < r.rem) ||
        decide (0 < r.core)) = true := by
      rcases h with h | h | h <;> simp [h]
    simp only [finalizeRow, hb, if_true] at hf
    split at hf
    · rw [Option.some.injEq] at hf
      subst hf
      exact ⟨rfl, rfl, rfl⟩
    · exact absurd hf (by simp)
  · intro r out h1 h2 h3 hf
    have hfalse : ((decide (0 < r.deep) || decide (0 < r.rem) ||
        decide (0 < r.core)) = true) = False := by
      simp [h1, h2, h3]
    simp only [finalizeRow, hfalse, if_false] at hf
    split at hf
    · rw [Option.some.injEq] at hf
      subst hf
      rfl
    · exact absurd hf (by simp)

/-- Witness for C7 at a concrete input: the watch aggregate has detailed
stages, so its emitted light equals its core total, not the umbrella. -/
theorem claim_C7_witness :
    exC7WOut.light = pyRound2 exWatchAgg.core ∧
      exC7WOut.deep = exWatchAgg.deep ∧ exC7WOut.rem = exWatchAgg.rem :=
  claim_C7.1 exWatchAgg exC7WOut (Or.inl (by decide)) (by decide)

/- RMSSD lemmas connecting the source loop to the spec formula. -/

theorem succDiffsSq_eq (rr : List ℚ) :
    succDiffsSq rr =
      (rr.zip rr.tail).map (fun p => ((p.2 - p.1) * 1000) ^ 2) := by
  induction rr with
  | nil => rfl
  | cons a tl ih =>
    cases tl with
    | nil => rfl
    | cons b rest =>
      simp only [succDiffsSq]
      rw [ih]
      rfl

theorem succDiffsSq_length (rr : List ℚ) :
    (succDiffsSq rr).length = rr.length - 1 := by
  induction rr with
  | nil => rfl
  | cons a tl ih =>
    cases tl with
    | nil => rfl
    | cons b rest =>
      simp only [succDiffsSq, List.length_cons] at ih ⊢
      omega

/-- C9: for at least two RR intervals the locally computed quantity is
exactly the spec's mean of squared successive differences in milliseconds
(the stored value being its square root, which is nonnegative and squares
back to the mean); the parser then emits exactly one hrv_rmssd record.
For fewer than two intervals no record is produced at all — the metric is
omitted, never emitted as 0. -/
theorem claim_C9 :
    (∀ rr : List ℚ, 2 ≤ rr.length →
      compute_rmssd_sq_ms rr = some (specMeanSqDiff rr)) ∧
    (∀ (rr : List ℚ) (ra dev : String), 2 ≤ rr.length → ra ≠ "" →
      parse_hrv rr ra dev =
        [{ source := "garmin", metric := "hrv_rmssd",
           valueSq := specMeanSqDiff rr, unit := "ms",
           recorded_at := ra, device := dev }]) ∧
    (∀ rr : List ℚ, 0 ≤ specMeanSqDiff rr ∧
      Real.sqrt ((specMeanSqDiff rr : ℚ) : ℝ) ^ 2 =
        ((specMeanSqDiff rr : ℚ) : ℝ)) ∧
    (∀ (rr : List ℚ) (ra dev : String), rr.length < 2 →
      parse_hrv rr ra dev = []) := by
  have hmain : ∀ rr : List ℚ, 2 ≤ rr.length →
      compute_rmssd_sq_ms rr = some (specMeanSqDiff rr) := by
    intro rr h
    unfold compute_rmssd_sq_ms
    rw [if_neg (by omega)]
    congr 1
    unfold specMeanSqDiff
    rw [← succDiffsSq_eq, succDiffsSq_length]
  refine ⟨hmain, ?_, ?_, ?_⟩
  · intro rr ra dev h hra
    simp only [parse_hrv, hmain rr h]
    rw [if_neg hra]
  · intro rr
    have h0 : 0 ≤ specMeanSqDiff rr := by
      unfold specMeanSqDiff
      apply div_nonneg
      · apply List.sum_nonneg
        intro x hx
        rcases List.mem_map.mp hx with ⟨p, _, hp⟩
        rw [← hp]
        positivity
      · positivity
    exact ⟨h0, Real.sq_sqrt (by exact_mod_cast h0)⟩
  · intro rr ra dev h
    simp only [parse_hrv, compute_rmssd_sq_ms, if_pos h]

/-- Witness for C9 at a concrete input: two intervals 0.8 s and 0.9 s give
the mean squared successive difference 10000 ms² (RMSSD 100 ms). -/
theorem claim_C9_witness :
    compute_rmssd_sq_ms [4 / 5, 9 / 10] =
      some (specMeanSqDiff [4 / 5, 9 / 10]) :=
  claim_C9.1 [4 / 5, 9 / 10] (by decide)

end LeoHealth
